import Mathlib

/-!
Verification of `scripts/configure-storage.py`: a one-shot utility that reads a
JSON configuration file, replaces its `storage` key with a fixed
`optimized-local` adapter block parameterized by a caller-supplied storage
path, and writes the document back with 2-space indentation.

The embedding models:
* JSON values (`Json`), with numbers restricted to integers — float literals
  and float serialization are outside this embedding;
* Python dict assignment `config['storage'] = ...` (`setKey`: update in place
  at the first occurrence, append when absent);
* `json.dump(config, f, indent=2)` (`json_dumps`), including the default
  `ensure_ascii=True` escaping of non-ASCII characters as `\uXXXX` sequences
  (with surrogate pairs for astral characters);
* `json.load` (`json_load`), a whitespace-tolerant recursive-descent parser
  that deduplicates repeated object keys the way Python dicts do
  (first occurrence keeps its position, last value wins);
* the script body `configure_storage` and the CLI entry point `mainRun`,
  with the single target file modelled as an `Option String`
  (`none` = missing file) and errors as explicit `Err` values.
-/

namespace ConfigureStorage

/-- JSON values as handled by the Python `json` module, with numbers
restricted to integers. Object members are an insertion-ordered
association list, as in a Python dict. -/
inductive Json where
  | null
  | bool (b : Bool)
  | num (n : Int)
  | str (s : String)
  | arr (elems : List Json)
  | obj (members : List (String × Json))

/-- Python dict assignment `d[k] = v`: replace the value at the first
occurrence of `k` keeping its position, append `(k, v)` when `k` is absent. -/
def setKey : List (String × Json) → String → Json → List (String × Json)
  | [], k, v => [(k, v)]
  | (k1, v1) :: rest, k, v =>
    if k1 = k then (k, v) :: rest else (k1, v1) :: setKey rest k v

/-- Lookup of a key in the member list of an object (first occurrence). -/
def lookupKey : List (String × Json) → String → Option Json
  | [], _ => none
  | (k1, v1) :: rest, k => if k1 = k then some v1 else lookupKey rest k

/-- The member list restricted to keys other than `k`. -/
def delKey (members : List (String × Json)) (k : String) : List (String × Json) :=
  members.filter (fun m => m.1 ≠ k)

/-- The fixed storage block the script installs (lines 11–19 of the script),
parameterized by the caller-supplied storage path. -/
def storageConfig (storage_path : String) : Json :=
  Json.obj
    [("active", Json.str "optimized-local"),
     ("optimized-local", Json.obj
        [("storagePath", Json.str storage_path),
         ("sizes", Json.arr [Json.num 600, Json.num 1000, Json.num 1600, Json.num 2000]),
         ("quality", Json.num 82),
         ("keepOriginal", Json.bool true)])]

/-! ### Serialization: `json.dump(config, f, indent=2)` -/

/-- The decimal digit character for `d < 10`. -/
def digitChar : Nat → Char
  | 0 => '0' | 1 => '1' | 2 => '2' | 3 => '3' | 4 => '4'
  | 5 => '5' | 6 => '6' | 7 => '7' | 8 => '8' | 9 => '9'
  | _ => '0'

/-- Decimal digits of `n`, most significant first; the fuel argument only
bounds the recursion depth (any fuel above the digit count gives the same
result). -/
def natCharsAux : Nat → Nat → List Char
  | 0, _ => []
  | fuel + 1, n =>
    if n < 10 then [digitChar n] else natCharsAux fuel (n / 10) ++ [digitChar (n % 10)]

/-- Decimal representation of a natural number, most significant digit first. -/
def natChars (n : Nat) : List Char :=
  natCharsAux (n + 1) n

/-- Python `repr` of an integer. -/
def intChars (i : Int) : List Char :=
  if i < 0 then '-' :: natChars i.natAbs else natChars i.toNat

/-- Lowercase hexadecimal digit for `d < 16`. -/
def hexDigit : Nat → Char
  | 0 => '0' | 1 => '1' | 2 => '2' | 3 => '3' | 4 => '4'
  | 5 => '5' | 6 => '6' | 7 => '7' | 8 => '8' | 9 => '9'
  | 10 => 'a' | 11 => 'b' | 12 => 'c' | 13 => 'd' | 14 => 'e' | 15 => 'f'
  | _ => '0'

/-- Four lowercase hex digits, as in the `\u` escapes Python emits. -/
def toHex4 (n : Nat) : List Char :=
  [hexDigit (n / 4096 % 16), hexDigit (n / 256 % 16), hexDigit (n / 16 % 16), hexDigit (n % 16)]

/-- Escaping of one character as in the Python function
`json.encoder.py_encode_basestring_ascii` (the `ensure_ascii=True` default):
printable ASCII other than `"` and `\` is kept, the short escapes are used for
the usual control characters, every other character below `0x20` and at or
above `0x7f` becomes `\uXXXX`, astral characters become a surrogate pair. -/
def escapeChar (c : Char) : List Char :=
  if c = '"' then ['\\', '"']
  else if c = '\\' then ['\\', '\\']
  else if c = '\n' then ['\\', 'n']
  else if c = '\r' then ['\\', 'r']
  else if c = '\t' then ['\\', 't']
  else if c.toNat = 8 then ['\\', 'b']
  else if c.toNat = 12 then ['\\', 'f']
  else if c.toNat < 0x20 then '\\' :: 'u' :: toHex4 c.toNat
  else if c.toNat < 0x7f then [c]
  else if c.toNat < 0x10000 then '\\' :: 'u' :: toHex4 c.toNat
  else
    '\\' :: 'u' :: toHex4 (0xD800 + (c.toNat - 0x10000) / 0x400) ++
      '\\' :: 'u' :: toHex4 (0xDC00 + (c.toNat - 0x10000) % 0x400)

/-- Escape every character of a string body. -/
def escChars : List Char → List Char
  | [] => []
  | c :: cs => escapeChar c ++ escChars cs

/-- A JSON string literal: quotes around the escaped body. -/
def quoteChars (s : List Char) : List Char :=
  '"' :: (escChars s ++ ['"'])

/-- The newline-plus-indent separator emitted at nesting depth `d`
with `ind` spaces per level. -/
def nlPad (ind d : Nat) : List Char :=
  '\n' :: List.replicate (ind * d) ' '

mutual

/-- Serialization of a value at nesting depth `d`, mirroring
`json.dump(..., indent=ind)`: items separated by `','` + newline-indent,
keys followed by `': '`, empty containers printed compactly. -/
def dumpVal (ind d : Nat) : Json → List Char
  | Json.null => ['n', 'u', 'l', 'l']
  | Json.bool true => ['t', 'r', 'u', 'e']
  | Json.bool false => ['f', 'a', 'l', 's', 'e']
  | Json.num i => intChars i
  | Json.str s => quoteChars s.data
  | Json.arr [] => ['[', ']']
  | Json.arr (x :: xs) =>
      '[' :: (nlPad ind (d + 1) ++ dumpVal ind (d + 1) x ++ dumpItems ind d xs ++
        nlPad ind d ++ [']'])
  | Json.obj [] => ['\x7b', '\x7d']
  | Json.obj (m :: ms) =>
      '\x7b' :: (nlPad ind (d + 1) ++ dumpMember ind d m ++ dumpMembers ind d ms ++
        nlPad ind d ++ ['\x7d'])

/-- One `"key": value` member at container depth `d`. -/
def dumpMember (ind d : Nat) : String × Json → List Char
  | (k, v) => quoteChars k.data ++ ':' :: ' ' :: dumpVal ind (d + 1) v

/-- The remaining array items, each preceded by `','` + newline-indent. -/
def dumpItems (ind d : Nat) : List Json → List Char
  | [] => []
  | x :: xs => ',' :: (nlPad ind (d + 1) ++ dumpVal ind (d + 1) x ++ dumpItems ind d xs)

/-- The remaining object members, each preceded by `','` + newline-indent. -/
def dumpMembers (ind d : Nat) : List (String × Json) → List Char
  | [] => []
  | m :: ms => ',' :: (nlPad ind (d + 1) ++ dumpMember ind d m ++ dumpMembers ind d ms)

end

/-- `json.dumps(j, indent=ind)` (the script writes with `indent=2`). -/
def json_dumps (ind : Nat) (j : Json) : String :=
  String.mk (dumpVal ind 0 j)

/-! ### Parsing: `json.load` -/

/-- JSON insignificant whitespace. -/
def isWs (c : Char) : Bool :=
  c = ' ' || c = '\t' || c = '\n' || c = '\r'

/-- Drop leading whitespace. -/
def skipWs : List Char → List Char
  | [] => []
  | c :: cs => if isWs c then skipWs cs else c :: cs

/-- Value of one hexadecimal digit. -/
def hexVal (c : Char) : Option Nat :=
  if c.isDigit then some (c.toNat - 48)
  else if 'a' ≤ c && c ≤ 'f' then some (c.toNat - 87)
  else if 'A' ≤ c && c ≤ 'F' then some (c.toNat - 55)
  else none

/-- Four hex digits after a `\u` escape. -/
def parseHex4 : List Char → Option (Nat × List Char)
  | c1 :: c2 :: c3 :: c4 :: rest =>
    match hexVal c1, hexVal c2, hexVal c3, hexVal c4 with
    | some a, some b, some c, some d => some (a * 4096 + b * 256 + c * 16 + d, rest)
    | _, _, _, _ => none
  | _ => none

/-- The character denoted by a single-letter escape `\x`. -/
def escCharOf (c : Char) : Option Char :=
  if c = '"' then some '"'
  else if c = '\\' then some '\\'
  else if c = '/' then some '/'
  else if c = 'b' then some (Char.ofNat 8)
  else if c = 'f' then some (Char.ofNat 12)
  else if c = 'n' then some '\n'
  else if c = 'r' then some '\r'
  else if c = 't' then some '\t'
  else none

/-- String body after the opening quote: collect characters until the closing
quote, resolving escapes; a high surrogate `\uD800..\uDBFF` must be followed
by a low surrogate and the pair is combined into one scalar value (lone
surrogates are rejected: they have no counterpart among Unicode scalars). -/
def parseStringBody : Nat → List Char → List Char → Option (List Char × List Char)
  | 0, _, _ => none
  | _ + 1, [], _ => none
  | fuel + 1, c :: cs, acc =>
    if c = '"' then some (acc, cs)
    else if c = '\\' then
      match cs with
      | [] => none
      | e :: cs2 =>
        if e = 'u' then
          match parseHex4 cs2 with
          | none => none
          | some (n, cs3) =>
            if 0xD800 ≤ n && n < 0xDC00 then
              match cs3 with
              | e1 :: e2 :: cs4 =>
                if e1 = '\\' && e2 = 'u' then
                  match parseHex4 cs4 with
                  | none => none
                  | some (m, cs5) =>
                    if 0xDC00 ≤ m && m < 0xE000 then
                      parseStringBody fuel cs5
                        (acc ++ [Char.ofNat (0x10000 + (n - 0xD800) * 0x400 + (m - 0xDC00))])
                    else none
                else none
              | _ => none
            else if 0xDC00 ≤ n && n < 0xE000 then none
            else parseStringBody fuel cs3 (acc ++ [Char.ofNat n])
        else
          match escCharOf e with
          | some c2 => parseStringBody fuel cs2 (acc ++ [c2])
          | none => none
    else parseStringBody fuel cs (acc ++ [c])

/-- Accumulate a maximal run of decimal digits. -/
def digitsAux : List Char → Nat → Nat × List Char
  | [], acc => (acc, [])
  | c :: cs, acc =>
    if c.isDigit then digitsAux cs (acc * 10 + (c.toNat - 48)) else (acc, c :: cs)

mutual

/-- One JSON value, after optional leading whitespace. -/
def parseValue : Nat → List Char → Option (Json × List Char)
  | 0, _ => none
  | fuel + 1, cs =>
    match skipWs cs with
    | [] => none
    | c :: rest =>
      if c = 'n' then
        match rest with
        | c1 :: c2 :: c3 :: r =>
          if c1 = 'u' && c2 = 'l' && c3 = 'l' then some (Json.null, r) else none
        | _ => none
      else if c = 't' then
        match rest with
        | c1 :: c2 :: c3 :: r =>
          if c1 = 'r' && c2 = 'u' && c3 = 'e' then some (Json.bool true, r) else none
        | _ => none
      else if c = 'f' then
        match rest with
        | c1 :: c2 :: c3 :: c4 :: r =>
          if c1 = 'a' && c2 = 'l' && c3 = 's' && c4 = 'e' then some (Json.bool false, r)
          else none
        | _ => none
      else if c = '"' then
        match parseStringBody (rest.length + 1) rest [] with
        | some (scs, r) => some (Json.str (String.mk scs), r)
        | none => none
      else if c = '-' then
        match rest with
        | d :: r2 =>
          if d.isDigit then
            let p := digitsAux r2 (d.toNat - 48)
            some (Json.num (-(Int.ofNat p.1)), p.2)
          else none
        | [] => none
      else if c.isDigit then
        let p := digitsAux rest (c.toNat - 48)
        some (Json.num (Int.ofNat p.1), p.2)
      else if c = '[' then
        match skipWs rest with
        | [] => none
        | c2 :: r =>
          if c2 = ']' then some (Json.arr [], r) else parseArrItems fuel (c2 :: r) []
      else if c = '\x7b' then
        match skipWs rest with
        | [] => none
        | c2 :: r =>
          if c2 = '\x7d' then some (Json.obj [], r) else parseObjItems fuel (c2 :: r) []
      else none

/-- Comma-separated array items up to the closing bracket. -/
def parseArrItems : Nat → List Char → List Json → Option (Json × List Char)
  | 0, _, _ => none
  | fuel + 1, cs, acc =>
    match parseValue fuel cs with
    | none => none
    | some (v, r) =>
      match skipWs r with
      | [] => none
      | c :: r2 =>
        if c = ',' then parseArrItems fuel r2 (acc ++ [v])
        else if c = ']' then some (Json.arr (acc ++ [v]), r2)
        else none

/-- Comma-separated `"key": value` members up to the closing brace; members
are added with `setKey`, reproducing Python dict construction on duplicate
keys. -/
def parseObjItems : Nat → List Char → List (String × Json) → Option (Json × List Char)
  | 0, _, _ => none
  | fuel + 1, cs, acc =>
    match skipWs cs with
    | [] => none
    | c :: r =>
      if c = '"' then
        match parseStringBody (r.length + 1) r [] with
        | none => none
        | some (kcs, r2) =>
          match skipWs r2 with
          | [] => none
          | c2 :: r3 =>
            if c2 = ':' then
              match parseValue fuel r3 with
              | none => none
              | some (v, r4) =>
                match skipWs r4 with
                | [] => none
                | c3 :: r5 =>
                  if c3 = ',' then parseObjItems fuel r5 (setKey acc (String.mk kcs) v)
                  else if c3 = '\x7d' then
                    some (Json.obj (setKey acc (String.mk kcs) v), r5)
                  else none
            else none
      else none

end

/-- `json.load`: parse one value and require only whitespace after it. -/
def json_load (s : String) : Option Json :=
  match parseValue (s.data.length + 1) s.data with
  | some (j, rest) => if (skipWs rest).isEmpty then some j else none
  | none => none

/-! ### The script -/

/-- The failure modes of `configure_storage`: the Python exceptions
`OSError` (file missing/unreadable), `json.JSONDecodeError` (malformed
JSON) and `TypeError` (top level not an object, so the key assignment
fails). -/
inductive Err where
  | ioError
  | parseError
  | typeError

/-- `configure_storage(config_file, storage_path)` (lines 7–24 of the
script), with the state of the target file passed explicitly: `none` means the
file is missing. On success the result carries the new file content and
the message printed to standard output; on failure nothing is written. -/
def configure_storage (file : Option String) (storage_path : String) :
    Except Err (String × String) :=
  match file with
  | none => Except.error Err.ioError
  | some raw =>
    match json_load raw with
    | none => Except.error Err.parseError
    | some (Json.obj members) =>
        Except.ok
          (json_dumps 2 (Json.obj (setKey members "storage" (storageConfig storage_path))),
           "Storage adapter configured successfully")
    | some _ => Except.error Err.typeError

/-- Observable outcome of one process run: the final state of the target
file, the lines printed to standard output, the exit code, and the
uncaught exception when the run terminated fatally. -/
structure RunResult where
  file : Option String
  stdout : List String
  exitCode : Nat
  uncaught : Option Err

/-- The usage line printed on a wrong argument count;
`argv.headD ""` is `sys.argv[0]`, the program name. -/
def usageMsg (argv : List String) : String :=
  "Usage: " ++ argv.headD "" ++ " <config_file> <storage_path>"

/-- The `__main__` block (lines 26–30): `argv` includes the program name, so
the expected length is 3. A wrong argument count prints the usage line and
exits with code 1 before touching the file; an exception escaping
`configure_storage` terminates the interpreter with exit code 1 and no
output on standard output; on success the confirmation is printed and the
process exits with code 0. -/
def mainRun (argv : List String) (file : Option String) : RunResult :=
  if argv.length ≠ 3 then
    { file := file, stdout := [usageMsg argv], exitCode := 1, uncaught := none }
  else
    match configure_storage file (argv.getD 2 "") with
    | Except.ok (newContent, msg) =>
        { file := some newContent, stdout := [msg], exitCode := 0, uncaught := none }
    | Except.error e =>
        { file := file, stdout := [], exitCode := 1, uncaught := some e }

/-! ### Auxiliary predicates and measures used by the verification -/

/-- Key lists as built by Python dicts: no key occurs twice. -/
def keysDistinctB : List (String × Json) → Bool
  | [] => true
  | (k, _) :: rest => rest.all (fun m => m.1 != k) && keysDistinctB rest

mutual

/-- Well-formed values: the member list of every object is duplicate-free,
recursively. Every value produced by `json_load` is well formed. -/
def wfB : Json → Bool
  | Json.null => true
  | Json.bool _ => true
  | Json.num _ => true
  | Json.str _ => true
  | Json.arr xs => wfArr xs
  | Json.obj ms => keysDistinctB ms && wfMembers ms

/-- All elements of an array are well formed. -/
def wfArr : List Json → Bool
  | [] => true
  | x :: xs => wfB x && wfArr xs

/-- All member values of an object are well formed. -/
def wfMembers : List (String × Json) → Bool
  | [] => true
  | m :: ms => wfB m.2 && wfMembers ms

end

mutual

/-- Fuel measure for the parser: an upper bound on the recursion depth
`parseValue` needs to re-read a serialized value. -/
def sizeJ : Json → Nat
  | Json.null => 1
  | Json.bool _ => 1
  | Json.num _ => 1
  | Json.str _ => 1
  | Json.arr xs => 1 + sizeArr xs
  | Json.obj ms => 1 + sizeMembers ms

/-- Fuel measure for `parseArrItems`. -/
def sizeArr : List Json → Nat
  | [] => 1
  | x :: xs => 1 + sizeJ x + sizeArr xs

/-- Fuel measure for `parseObjItems`. -/
def sizeMembers : List (String × Json) → Nat
  | [] => 1
  | m :: ms => 1 + sizeJ m.2 + sizeMembers ms

end

/-- The list does not start with a decimal digit, so a maximal digit run
ending right before it is read back unchanged. -/
def headNotDigitB : List Char → Bool
  | [] => true
  | c :: _ => !c.isDigit

/-- Scenario 1 input file content: `\x7b"url": "http://x"\x7d`. -/
def scenario1_input : String := "\x7b\"url\": \"http://x\"\x7d"

/-- Scenario 1 expected output file content: the input with the `storage`
block appended, serialized with 2-space indentation. -/
def scenario1_output : String :=
  "\x7b\n  \"url\": \"http://x\",\n  \"storage\": \x7b\n    \"active\": \"optimized-local\",\n    \"optimized-local\": \x7b\n      \"storagePath\": \"/var/data\",\n      \"sizes\": [\n        600,\n        1000,\n        1600,\n        2000\n      ],\n      \"quality\": 82,\n      \"keepOriginal\": true\n    \x7d\n  \x7d\n\x7d"

/-- Output of a run on an empty object with the non-ASCII storage path `é`:
the path is written as the escape `\u00e9`, keeping the file pure ASCII. -/
def asciiDemo_output : String :=
  "\x7b\n  \"storage\": \x7b\n    \"active\": \"optimized-local\",\n    \"optimized-local\": \x7b\n      \"storagePath\": \"\\u00e9\",\n      \"sizes\": [\n        600,\n        1000,\n        1600,\n        2000\n      ],\n      \"quality\": 82,\n      \"keepOriginal\": true\n    \x7d\n  \x7d\n\x7d"

end ConfigureStorage

namespace ConfigureStorage

/-! ### Character-level facts -/

theorem char_toNat_ofNat (n : Nat) (h : Nat.isValidChar n) : (Char.ofNat n).toNat = n := by
  simp only [Char.ofNat, dif_pos h, Char.ofNatAux, Char.toNat]
  rfl

theorem char_toNat_lt (c : Char) : c.toNat < 0x110000 := by
  have h := c.valid
  simp only [Char.toNat]
  rcases h with h | h <;> omega

theorem char_not_surrogate (c : Char) : ¬(0xD800 ≤ c.toNat ∧ c.toNat < 0xE000) := by
  have h := c.valid
  simp only [Char.toNat]
  rcases h with h | h <;> omega

theorem char_eq_iff_toNat {c d : Char} : c = d ↔ c.toNat = d.toNat := by
  constructor
  · intro h; rw [h]
  · intro h
    have h2 := Char.ofNat_toNat c
    rw [← h2, h, Char.ofNat_toNat]

theorem char_ne_of_toNat_ne {c d : Char} (h : c.toNat ≠ d.toNat) : c ≠ d :=
  fun e => h (char_eq_iff_toNat.1 e)

theorem isDigit_iff (c : Char) : c.isDigit = true ↔ 48 ≤ c.toNat ∧ c.toNat ≤ 57 := by
  simp [Char.isDigit, Char.toNat]
  exact Iff.rfl

theorem isWs_eq_false_iff (c : Char) : isWs c = false ↔ c ≠ ' ' ∧ c ≠ '\t' ∧ c ≠ '\n' ∧ c ≠ '\r' := by
  simp [isWs]
  tauto

theorem digit_branches {c : Char} (h : c.isDigit = true) :
    isWs c = false ∧ c ≠ 'n' ∧ c ≠ 't' ∧ c ≠ 'f' ∧ c ≠ '"' ∧ c ≠ '-' ∧
      c ≠ ']' ∧ c ≠ '\x7d' ∧ c ≠ ',' := by
  have hc := (isDigit_iff c).1 h
  refine ⟨(isWs_eq_false_iff c).2 ⟨?_, ?_, ?_, ?_⟩, ?_, ?_, ?_, ?_, ?_, ?_, ?_, ?_⟩ <;>
    refine char_ne_of_toNat_ne ?_ <;>
    simp only [show (' ' : Char).toNat = 32 from rfl, show ('\t' : Char).toNat = 9 from rfl,
      show ('\n' : Char).toNat = 10 from rfl, show ('\r' : Char).toNat = 13 from rfl,
      show ('n' : Char).toNat = 110 from rfl, show ('t' : Char).toNat = 116 from rfl,
      show ('f' : Char).toNat = 102 from rfl, show ('"' : Char).toNat = 34 from rfl,
      show ('-' : Char).toNat = 45 from rfl, show (']' : Char).toNat = 93 from rfl,
      show ('\x7d' : Char).toNat = 125 from rfl, show (',' : Char).toNat = 44 from rfl] <;>
    omega

/-! ### Association-list lemmas for Python dict assignment -/

theorem lookupKey_setKey_self (ms : List (String × Json)) (k : String) (v : Json) :
    lookupKey (setKey ms k v) k = some v := by
  induction ms with
  | nil => simp [setKey, lookupKey]
  | cons m rest ih =>
    obtain ⟨k1, v1⟩ := m
    by_cases h : k1 = k
    · simp [setKey, h, lookupKey]
    · simp [setKey, h, lookupKey, ih]

theorem delKey_setKey (ms : List (String × Json)) (k : String) (v : Json) :
    delKey (setKey ms k v) k = delKey ms k := by
  induction ms with
  | nil => simp [setKey, delKey]
  | cons m rest ih =>
    obtain ⟨k1, v1⟩ := m
    by_cases h : k1 = k
    · simp [setKey, h, delKey]
    · simpa [setKey, h, delKey] using ih

theorem setKey_setKey (ms : List (String × Json)) (k : String) (v : Json) :
    setKey (setKey ms k v) k v = setKey ms k v := by
  induction ms with
  | nil => simp [setKey]
  | cons m rest ih =>
    obtain ⟨k1, v1⟩ := m
    by_cases h : k1 = k
    · simp [setKey, h]
    · simp [setKey, h, ih]

theorem setKey_eq_append (ms : List (String × Json)) (k : String) (v : Json)
    (h : ∀ m ∈ ms, m.1 ≠ k) : setKey ms k v = ms ++ [(k, v)] := by
  induction ms with
  | nil => simp [setKey]
  | cons m rest ih =>
    obtain ⟨k1, v1⟩ := m
    have h1 : k1 ≠ k := h (k1, v1) (List.mem_cons_self _ _)
    simp [setKey, h1]
    exact ih (fun m hm => h m (List.mem_cons_of_mem _ hm))

theorem keysDistinctB_append_head_ne (l1 l2 : List (String × Json)) (k : String) (v : Json)
    (h : keysDistinctB (l1 ++ (k, v) :: l2) = true) : ∀ m ∈ l1, m.1 ≠ k := by
  induction l1 with
  | nil => simp
  | cons m1 rest ih =>
    obtain ⟨k1, v1⟩ := m1
    simp only [List.cons_append, keysDistinctB, Bool.and_eq_true, List.all_eq_true] at h
    intro m hm
    rcases List.mem_cons.1 hm with he | hm2
    · subst he
      have h2 := h.1 (k, v) (by simp)
      simp only [bne_iff_ne, ne_eq] at h2
      exact fun e => h2 e.symm
    · exact ih h.2 m hm2

theorem keysDistinctB_tail (l1 l2 : List (String × Json)) (k : String) (v : Json)
    (h : keysDistinctB (l1 ++ (k, v) :: l2) = true) :
    keysDistinctB ((l1 ++ [(k, v)]) ++ l2) = true := by
  simpa using h

/-! ### Well-formedness lemmas -/

theorem wfArr_append {xs : List Json} {v : Json}
    (hxs : wfArr xs = true) (hv : wfB v = true) : wfArr (xs ++ [v]) = true := by
  induction xs with
  | nil => simp [wfArr, hv]
  | cons x rest ih =>
    simp only [wfArr, Bool.and_eq_true] at hxs ⊢
    exact ⟨hxs.1, ih hxs.2⟩

theorem wfMembers_append {ms : List (String × Json)} {k : String} {v : Json}
    (hms : wfMembers ms = true) (hv : wfB v = true) : wfMembers (ms ++ [(k, v)]) = true := by
  induction ms with
  | nil => simp [wfMembers, hv]
  | cons m rest ih =>
    simp only [wfMembers, Bool.and_eq_true] at hms ⊢
    exact ⟨hms.1, ih hms.2⟩

theorem wfMembers_setKey {ms : List (String × Json)} {k : String} {v : Json}
    (hms : wfMembers ms = true) (hv : wfB v = true) : wfMembers (setKey ms k v) = true := by
  induction ms with
  | nil => simp [setKey, wfMembers, hv]
  | cons m rest ih =>
    obtain ⟨k1, v1⟩ := m
    simp only [wfMembers, Bool.and_eq_true] at hms
    by_cases h : k1 = k
    · simp [setKey, h, wfMembers, hv, hms.2]
    · simp only [setKey, h, if_false, wfMembers, Bool.and_eq_true]
      exact ⟨hms.1, ih hms.2⟩

theorem mem_setKey {ms : List (String × Json)} {k : String} {v : Json} {m : String × Json}
    (hm : m ∈ setKey ms k v) : m ∈ ms ∨ m = (k, v) := by
  induction ms with
  | nil => simpa [setKey] using hm
  | cons m1 rest ih =>
    obtain ⟨k1, v1⟩ := m1
    by_cases h : k1 = k
    · simp only [setKey, if_pos h] at hm
      rcases List.mem_cons.1 hm with he | hm2
      · exact Or.inr he
      · exact Or.inl (List.mem_cons_of_mem _ hm2)
    · simp only [setKey, h, if_false] at hm
      rcases List.mem_cons.1 hm with he | hm2
      · exact Or.inl (he ▸ List.mem_cons_self _ _)
      · rcases ih hm2 with h2 | h2
        · exact Or.inl (List.mem_cons_of_mem _ h2)
        · exact Or.inr h2

theorem keysDistinctB_setKey {ms : List (String × Json)} {k : String} {v : Json}
    (hms : keysDistinctB ms = true) : keysDistinctB (setKey ms k v) = true := by
  induction ms with
  | nil => simp [setKey, keysDistinctB]
  | cons m rest ih =>
    obtain ⟨k1, v1⟩ := m
    simp only [keysDistinctB, Bool.and_eq_true, List.all_eq_true] at hms
    by_cases h : k1 = k
    · subst h
      simp only [setKey, if_pos rfl, keysDistinctB, Bool.and_eq_true, List.all_eq_true]
      exact hms
    · simp only [setKey, h, if_false, keysDistinctB, Bool.and_eq_true, List.all_eq_true]
      constructor
      · intro m hm
        rcases mem_setKey hm with h2 | h2
        · exact hms.1 m h2
        · subst h2
          simpa [bne_iff_ne] using fun e => h e.symm
      · exact ih hms.2

theorem wfB_storageConfig (p : String) : wfB (storageConfig p) = true := by
  rfl

/-! ### Whitespace lemmas -/

theorem skipWs_cons_not_ws {c : Char} (h : isWs c = false) (cs : List Char) :
    skipWs (c :: cs) = c :: cs := by
  simp [skipWs, h]

theorem skipWs_replicate_space (n : Nat) (cs : List Char) :
    skipWs (List.replicate n ' ' ++ cs) = skipWs cs := by
  induction n with
  | zero => simp
  | succ m ih => simpa [skipWs, isWs] using ih

theorem skipWs_nlPad (ind d : Nat) (cs : List Char) :
    skipWs (nlPad ind d ++ cs) = skipWs cs := by
  simp only [nlPad, List.cons_append]
  rw [show skipWs ('\n' :: (List.replicate (ind * d) ' ' ++ cs)) =
      skipWs (List.replicate (ind * d) ' ' ++ cs) by simp [skipWs, isWs]]
  exact skipWs_replicate_space _ _

theorem skipWs_idem (cs : List Char) : skipWs (skipWs cs) = skipWs cs := by
  induction cs with
  | nil => simp [skipWs]
  | cons c rest ih =>
    by_cases h : isWs c = true
    · simp [skipWs, h, ih]
    · simp only [Bool.not_eq_true] at h
      simp [skipWs, h]

/-! ### The parser reads through leading whitespace -/

theorem parseValue_congr {cs1 cs2 : List Char} (fuel : Nat) (h : skipWs cs1 = skipWs cs2) :
    parseValue fuel cs1 = parseValue fuel cs2 := by
  cases fuel with
  | zero => rfl
  | succ f => simp only [parseValue, h]

theorem parseArrItems_congr {cs1 cs2 : List Char} (fuel : Nat) (acc : List Json)
    (h : skipWs cs1 = skipWs cs2) :
    parseArrItems fuel cs1 acc = parseArrItems fuel cs2 acc := by
  cases fuel with
  | zero => rfl
  | succ f => simp only [parseArrItems, parseValue_congr f h]

theorem parseObjItems_congr {cs1 cs2 : List Char} (fuel : Nat) (acc : List (String × Json))
    (h : skipWs cs1 = skipWs cs2) :
    parseObjItems fuel cs1 acc = parseObjItems fuel cs2 acc := by
  cases fuel with
  | zero => rfl
  | succ f => simp only [parseObjItems, h]

/-! ### Size positivity -/

theorem sizeJ_pos (j : Json) : 1 ≤ sizeJ j := by
  cases j <;> simp [sizeJ]

theorem sizeArr_pos (xs : List Json) : 1 ≤ sizeArr xs := by
  cases xs with
  | nil => simp [sizeArr]
  | cons x t => simp only [sizeArr]; omega

theorem sizeMembers_pos (ms : List (String × Json)) : 1 ≤ sizeMembers ms := by
  cases ms with
  | nil => simp [sizeMembers]
  | cons m t => simp only [sizeMembers]; omega

/-! ### Decimal digits -/

theorem digitChar_facts : ∀ d < 10, (digitChar d).isDigit = true ∧ (digitChar d).toNat = 48 + d := by
  decide

theorem natCharsAux_irrel (n : Nat) :
    ∀ fuel1 fuel2, n < fuel1 → n < fuel2 → natCharsAux fuel1 n = natCharsAux fuel2 n := by
  induction n using Nat.strong_induction_on with
  | _ n ih =>
    intro fuel1 fuel2 h1 h2
    obtain ⟨f1, rfl⟩ : ∃ f, fuel1 = f + 1 := ⟨fuel1 - 1, by omega⟩
    obtain ⟨f2, rfl⟩ : ∃ f, fuel2 = f + 1 := ⟨fuel2 - 1, by omega⟩
    simp only [natCharsAux]
    by_cases h10 : n < 10
    · simp [h10]
    · rw [if_neg h10, if_neg h10]
      have hd : n / 10 < n := Nat.div_lt_self (by omega) (by omega)
      rw [ih _ hd f1 (n / 10 + 1) (by omega) (by omega),
        ih _ hd f2 (n / 10 + 1) (by omega) (by omega)]

theorem natChars_unfold (n : Nat) :
    natChars n = if n < 10 then [digitChar n] else natChars (n / 10) ++ [digitChar (n % 10)] := by
  by_cases h10 : n < 10
  · rw [if_pos h10]
    unfold natChars
    simp [natCharsAux, h10]
  · rw [if_neg h10]
    show natCharsAux (n + 1) n = natCharsAux (n / 10 + 1) (n / 10) ++ [digitChar (n % 10)]
    rw [show natCharsAux (n + 1) n =
      if n < 10 then [digitChar n] else natCharsAux n (n / 10) ++ [digitChar (n % 10)] from rfl]
    rw [if_neg h10]
    have hd : n / 10 < n := Nat.div_lt_self (by omega) (by omega)
    rw [natCharsAux_irrel (n / 10) n (n / 10 + 1) (by omega) (by omega)]

theorem natChars_digits (n : Nat) :
    natChars n ≠ [] ∧ ∀ c ∈ natChars n, c.isDigit = true := by
  induction n using Nat.strong_induction_on with
  | _ n ih =>
    by_cases h : n < 10
    · rw [natChars_unfold, if_pos h]
      refine ⟨by simp, ?_⟩
      intro c hc
      rw [List.mem_singleton] at hc
      subst hc
      exact (digitChar_facts n h).1
    · rw [natChars_unfold, if_neg h]
      have hd : n / 10 < n := Nat.div_lt_self (by omega) (by omega)
      refine ⟨by simp [(ih _ hd).1], ?_⟩
      intro c hc
      rcases List.mem_append.1 hc with h2 | h2
      · exact (ih _ hd).2 c h2
      · rw [List.mem_singleton] at h2
        subst h2
        exact (digitChar_facts _ (Nat.mod_lt _ (by omega))).1

theorem digitsAux_cons_digit {c : Char} (h : c.isDigit = true) (cs : List Char) (acc : Nat) :
    digitsAux (c :: cs) acc = digitsAux cs (acc * 10 + (c.toNat - 48)) := by
  simp [digitsAux, h]

theorem digitsAux_stop {cs : List Char} (h : headNotDigitB cs = true) (acc : Nat) :
    digitsAux cs acc = (acc, cs) := by
  cases cs with
  | nil => rfl
  | cons c rest =>
    simp only [headNotDigitB, Bool.not_eq_true'] at h
    simp [digitsAux, h]

theorem digitsAux_natChars (n : Nat) :
    ∀ rest acc, digitsAux (natChars n ++ rest) acc =
      digitsAux rest (acc * 10 ^ (natChars n).length + n) := by
  induction n using Nat.strong_induction_on with
  | _ n ih =>
    intro rest acc
    by_cases h : n < 10
    · rw [natChars_unfold, if_pos h]
      rw [List.singleton_append, digitsAux_cons_digit (digitChar_facts n h).1,
        (digitChar_facts n h).2]
      simp only [List.length_singleton, pow_one]
      congr 1
      omega
    · rw [natChars_unfold, if_neg h]
      have hd : n / 10 < n := Nat.div_lt_self (by omega) (by omega)
      rw [List.append_assoc, List.singleton_append, ih _ hd,
        digitsAux_cons_digit (digitChar_facts _ (Nat.mod_lt _ (by omega))).1,
        (digitChar_facts _ (Nat.mod_lt _ (by omega))).2]
      congr 1
      · simp only [List.length_append, List.length_singleton, pow_succ]
        have h10 : 10 * (n / 10) + n % 10 = n := Nat.div_add_mod n 10
        set p := 10 ^ (natChars (n / 10)).length
        ring_nf
        omega

/-! ### Hexadecimal escapes -/

theorem hexVal_hexDigit : ∀ d < 16, hexVal (hexDigit d) = some d := by
  decide

theorem hexDigit_ascii (d : Nat) : (hexDigit d).toNat < 128 := by
  unfold hexDigit
  split <;> decide

theorem digitChar_ascii (d : Nat) : (digitChar d).toNat < 128 := by
  unfold digitChar
  split <;> decide

theorem parseHex4_toHex4 {n : Nat} (h : n < 0x10000) (rest : List Char) :
    parseHex4 (toHex4 n ++ rest) = some (n, rest) := by
  have h1 : n / 4096 % 16 < 16 := Nat.mod_lt _ (by omega)
  have h2 : n / 256 % 16 < 16 := Nat.mod_lt _ (by omega)
  have h3 : n / 16 % 16 < 16 := Nat.mod_lt _ (by omega)
  have h4 : n % 16 < 16 := Nat.mod_lt _ (by omega)
  simp only [toHex4, List.cons_append, List.nil_append, parseHex4,
    hexVal_hexDigit _ h1, hexVal_hexDigit _ h2, hexVal_hexDigit _ h3, hexVal_hexDigit _ h4,
    Option.some.injEq, Prod.mk.injEq]
  exact ⟨by omega, trivial⟩

theorem escapeChar_length_pos (c : Char) : 1 ≤ (escapeChar c).length := by
  unfold escapeChar
  (repeat' split) <;> simp [toHex4]

theorem escChars_length (s : List Char) : s.length ≤ (escChars s).length := by
  induction s with
  | nil => simp [escChars]
  | cons c cs ih =>
    simp only [escChars, List.length_append, List.length_cons]
    have := escapeChar_length_pos c
    omega

/-! ### One step of the string-body parser over one escaped character -/

theorem parseStringBody_step_esc {e c2 : Char} (hne : e ≠ 'u') (hesc : escCharOf e = some c2)
    (f : Nat) (X acc : List Char) :
    parseStringBody (f + 1) ('\\' :: e :: X) acc = parseStringBody f X (acc ++ [c2]) := by
  simp [parseStringBody, hne, hesc]

theorem parseStringBody_step_u {v : Nat} (hlt : v < 0x10000)
    (hns : ¬(0xD800 ≤ v ∧ v < 0xE000)) (f : Nat) (X acc : List Char) :
    parseStringBody (f + 1) ('\\' :: 'u' :: (toHex4 v ++ X)) acc =
      parseStringBody f X (acc ++ [Char.ofNat v]) := by
  simp only [parseStringBody, if_true]
  simp only [parseHex4_toHex4 hlt]
  rw [if_neg (show ¬(decide (0xD800 ≤ v) && decide (v < 0xDC00)) = true by
        simp only [Bool.and_eq_true, decide_eq_true_eq]; omega),
    if_neg (show ¬(decide (0xDC00 ≤ v) && decide (v < 0xE000)) = true by
        simp only [Bool.and_eq_true, decide_eq_true_eq]; omega),
    if_neg (show ¬('\\' : Char) = '"' by decide)]

theorem parseStringBody_step_pair {hi lo : Nat} (hhi1 : 0xD800 ≤ hi) (hhi2 : hi < 0xDC00)
    (hlo1 : 0xDC00 ≤ lo) (hlo2 : lo < 0xE000) (f : Nat) (X acc : List Char) :
    parseStringBody (f + 1) ('\\' :: 'u' :: (toHex4 hi ++ '\\' :: 'u' :: (toHex4 lo ++ X))) acc =
      parseStringBody f X (acc ++ [Char.ofNat (0x10000 + (hi - 0xD800) * 0x400 + (lo - 0xDC00))]) := by
  simp only [parseStringBody, if_true]
  simp only [parseHex4_toHex4 (show hi < 0x10000 by omega)]
  rw [if_pos (show (decide (0xD800 ≤ hi) && decide (hi < 0xDC00)) = true by
        simp only [Bool.and_eq_true, decide_eq_true_eq]; omega)]
  rw [if_neg (show ¬('\\' : Char) = '"' by decide), if_pos (by decide)]
  simp only [parseHex4_toHex4 (show lo < 0x10000 by omega)]
  rw [if_pos (show (decide (0xDC00 ≤ lo) && decide (lo < 0xE000)) = true by
        simp only [Bool.and_eq_true, decide_eq_true_eq]; omega)]

theorem parseStringBody_step_plain {c : Char} (h1 : c ≠ '"') (h2 : c ≠ '\\')
    (f : Nat) (X acc : List Char) :
    parseStringBody (f + 1) (c :: X) acc = parseStringBody f X (acc ++ [c]) := by
  simp [parseStringBody, h1, h2]

/-! ### The string-body parser inverts `escChars` -/

theorem parseStringBody_escChars (s : List Char) :
    ∀ fuel acc rest, s.length + 1 ≤ fuel →
      parseStringBody fuel (escChars s ++ '"' :: rest) acc = some (acc ++ s, rest) := by
  induction s with
  | nil =>
    intro fuel acc rest hf
    obtain ⟨f, rfl⟩ : ∃ f, fuel = f + 1 := ⟨fuel - 1, by omega⟩
    simp [escChars, parseStringBody]
  | cons c cs ih =>
    intro fuel acc rest hf
    obtain ⟨f, rfl⟩ : ∃ f, fuel = f + 1 := ⟨fuel - 1, by omega⟩
    have hf2 : cs.length + 1 ≤ f := by
      simp only [List.length_cons] at hf
      omega
    have glue : ∀ x : Char,
        parseStringBody f (escChars cs ++ '"' :: rest) (acc ++ [x]) = some (acc ++ x :: cs, rest) := by
      intro x
      rw [ih f (acc ++ [x]) rest hf2]
      simp
    simp only [escChars, List.append_assoc]
    by_cases h1 : c = '"'
    · subst h1
      rw [show escapeChar '"' = ['\\', '"'] from rfl]
      simp only [List.cons_append, List.nil_append]
      rw [parseStringBody_step_esc (by decide) (show escCharOf '"' = some '"' from rfl)]
      exact glue '"'
    · by_cases h2 : c = '\\'
      · subst h2
        rw [show escapeChar '\\' = ['\\', '\\'] from rfl]
        simp only [List.cons_append, List.nil_append]
        rw [parseStringBody_step_esc (by decide) (show escCharOf '\\' = some '\\' from rfl)]
        exact glue '\\'
      · by_cases h3 : c = '\n'
        · subst h3
          rw [show escapeChar '\n' = ['\\', 'n'] from rfl]
          simp only [List.cons_append, List.nil_append]
          rw [parseStringBody_step_esc (by decide) (show escCharOf 'n' = some '\n' from rfl)]
          exact glue '\n'
        · by_cases h4 : c = '\r'
          · subst h4
            rw [show escapeChar '\r' = ['\\', 'r'] from rfl]
            simp only [List.cons_append, List.nil_append]
            rw [parseStringBody_step_esc (by decide) (show escCharOf 'r' = some '\r' from rfl)]
            exact glue '\r'
          · by_cases h5 : c = '\t'
            · subst h5
              rw [show escapeChar '\t' = ['\\', 't'] from rfl]
              simp only [List.cons_append, List.nil_append]
              rw [parseStringBody_step_esc (by decide) (show escCharOf 't' = some '\t' from rfl)]
              exact glue '\t'
            · by_cases h6 : c.toNat = 8
              · have hc : Char.ofNat 8 = c := by
                  rw [← h6, Char.ofNat_toNat]
                rw [show escapeChar c = ['\\', 'b'] by
                  simp [escapeChar, h1, h2, h3, h4, h5, h6]]
                simp only [List.cons_append, List.nil_append]
                rw [parseStringBody_step_esc (by decide)
                  (show escCharOf 'b' = some (Char.ofNat 8) from rfl), hc]
                exact glue c
              · by_cases h7 : c.toNat = 12
                · have hc : Char.ofNat 12 = c := by
                    rw [← h7, Char.ofNat_toNat]
                  rw [show escapeChar c = ['\\', 'f'] by
                    simp [escapeChar, h1, h2, h3, h4, h5, h6, h7]]
                  simp only [List.cons_append, List.nil_append]
                  rw [parseStringBody_step_esc (by decide)
                    (show escCharOf 'f' = some (Char.ofNat 12) from rfl), hc]
                  exact glue c
                · by_cases h8 : c.toNat < 0x20
                  · rw [show escapeChar c = '\\' :: 'u' :: toHex4 c.toNat by
                      simp [escapeChar, h1, h2, h3, h4, h5, h6, h7, h8]]
                    simp only [List.cons_append, List.append_assoc]
                    rw [parseStringBody_step_u (by omega) (by omega), Char.ofNat_toNat]
                    exact glue c
                  · by_cases h9 : c.toNat < 0x7f
                    · rw [show escapeChar c = [c] by
                        simp [escapeChar, h1, h2, h3, h4, h5, h6, h7, h8, h9]]
                      simp only [List.cons_append, List.nil_append]
                      rw [parseStringBody_step_plain h1 h2]
                      exact glue c
                    · by_cases h10 : c.toNat < 0x10000
                      · rw [show escapeChar c = '\\' :: 'u' :: toHex4 c.toNat by
                          simp [escapeChar, h1, h2, h3, h4, h5, h6, h7, h8, h9, h10]]
                        simp only [List.cons_append, List.append_assoc]
                        rw [parseStringBody_step_u h10 (char_not_surrogate c), Char.ofNat_toNat]
                        exact glue c
                      · have hv := char_toNat_lt c
                        rw [show escapeChar c =
                            '\\' :: 'u' :: toHex4 (0xD800 + (c.toNat - 0x10000) / 0x400) ++
                              '\\' :: 'u' :: toHex4 (0xDC00 + (c.toNat - 0x10000) % 0x400) by
                          simp [escapeChar, h1, h2, h3, h4, h5, h6, h7, h8, h9, h10]]
                        simp only [List.cons_append, List.append_assoc]
                        rw [parseStringBody_step_pair (by omega) (by omega) (by omega) (by omega)]
                        rw [show 0x10000 + (0xD800 + (c.toNat - 0x10000) / 0x400 - 0xD800) * 0x400 +
                              (0xDC00 + (c.toNat - 0x10000) % 0x400 - 0xDC00) = c.toNat by
                          have hdm := Nat.div_add_mod (c.toNat - 0x10000) 0x400
                          omega]
                        rw [Char.ofNat_toNat]
                        exact glue c

theorem stringmk_data (s : String) : String.mk s.data = s := rfl

/-! ### The first character of a serialized value -/

theorem dumpVal_head (ind d : Nat) (j : Json) :
    ∃ c0 rest0, dumpVal ind d j = c0 :: rest0 ∧ isWs c0 = false ∧ c0 ≠ ']' := by
  cases j with
  | num i =>
    rw [show dumpVal ind d (Json.num i) = intChars i from rfl]
    unfold intChars
    by_cases hi : i < 0
    · refine ⟨'-', _, by rw [if_pos hi], by decide⟩
    · rw [if_neg hi]
      obtain ⟨hne, hall⟩ := natChars_digits i.toNat
      cases hnc : natChars i.toNat with
      | nil => exact absurd hnc hne
      | cons c0 rest0 =>
        have hdg : c0.isDigit = true := hall c0 (hnc ▸ List.mem_cons_self _ _)
        obtain ⟨hws, _, _, _, _, _, hrb, _, _⟩ := digit_branches hdg
        exact ⟨c0, rest0, rfl, hws, hrb⟩
  | bool b => cases b <;> exact ⟨_, _, rfl, by decide⟩
  | arr elems => cases elems <;> exact ⟨'[', _, rfl, by decide⟩
  | obj members => cases members <;> exact ⟨'\x7b', _, rfl, by decide⟩
  | null => exact ⟨'n', _, rfl, by decide⟩
  | str s => exact ⟨'"', _, rfl, by decide⟩

/-- A serialized number followed by a non-digit is read back exactly. -/
theorem digitsAux_natChars_stop {rest : List Char} (n : Nat) (hrest : headNotDigitB rest = true) :
    digitsAux (natChars n ++ rest) 0 = (n, rest) := by
  rw [digitsAux_natChars, digitsAux_stop hrest]
  simp

set_option maxHeartbeats 1000000

/-! ### The parser inverts the serializer -/

theorem parse_dump_all : ∀ fuel : Nat,
    (∀ ind d j rest, sizeJ j ≤ fuel → wfB j = true → headNotDigitB rest = true →
      parseValue fuel (dumpVal ind d j ++ rest) = some (j, rest)) ∧
    (∀ ind d x xs rest acc, sizeArr (x :: xs) ≤ fuel → wfArr (x :: xs) = true →
      parseArrItems fuel
        (nlPad ind (d + 1) ++ dumpVal ind (d + 1) x ++ dumpItems ind d xs ++
          nlPad ind d ++ ']' :: rest) acc
        = some (Json.arr (acc ++ x :: xs), rest)) ∧
    (∀ ind d k v ms rest acc, sizeMembers ((k, v) :: ms) ≤ fuel →
      wfMembers ((k, v) :: ms) = true →
      keysDistinctB (acc ++ (k, v) :: ms) = true →
      parseObjItems fuel
        (nlPad ind (d + 1) ++ dumpMember ind d (k, v) ++ dumpMembers ind d ms ++
          nlPad ind d ++ '\x7d' :: rest) acc
        = some (Json.obj (acc ++ (k, v) :: ms), rest)) := by
  intro fuel
  induction fuel with
  | zero =>
    refine ⟨?_, ?_, ?_⟩
    · intro ind d j rest hs _ _
      have := sizeJ_pos j
      omega
    · intro ind d x xs rest acc hs _
      have := sizeArr_pos (x :: xs)
      omega
    · intro ind d k v ms rest acc hs _ _
      have := sizeMembers_pos ((k, v) :: ms)
      omega
  | succ f ih =>
    obtain ⟨ihA, ihB, ihC⟩ := ih
    refine ⟨?_, ?_, ?_⟩
    · -- parseValue inverts dumpVal
      intro ind d j rest hs hwf hrest
      cases j with
      | null =>
        rw [show dumpVal ind d Json.null = ['n', 'u', 'l', 'l'] from rfl]
        simp only [List.cons_append, List.nil_append, parseValue]
        rw [skipWs_cons_not_ws (by decide)]
        simp
      | bool b =>
        cases b with
        | true =>
          rw [show dumpVal ind d (Json.bool true) = ['t', 'r', 'u', 'e'] from rfl]
          simp only [List.cons_append, List.nil_append, parseValue]
          rw [skipWs_cons_not_ws (by decide)]
          simp
        | false =>
          rw [show dumpVal ind d (Json.bool false) = ['f', 'a', 'l', 's', 'e'] from rfl]
          simp only [List.cons_append, List.nil_append, parseValue]
          rw [skipWs_cons_not_ws (by decide)]
          simp
      | num i =>
        rw [show dumpVal ind d (Json.num i) = intChars i from rfl]
        unfold intChars
        by_cases hi : i < 0
        · rw [if_pos hi]
          obtain ⟨hne, hall⟩ := natChars_digits i.natAbs
          cases hnc : natChars i.natAbs with
          | nil => exact absurd hnc hne
          | cons hd tl =>
            have hdg : hd.isDigit = true := hall hd (hnc ▸ List.mem_cons_self _ _)
            simp only [List.cons_append, parseValue]
            rw [skipWs_cons_not_ws (by decide)]
            simp only [if_neg (show ¬('-' : Char) = 'n' by decide),
              if_neg (show ¬('-' : Char) = 't' by decide),
              if_neg (show ¬('-' : Char) = 'f' by decide),
              if_neg (show ¬('-' : Char) = '"' by decide), if_pos rfl, if_true]
            rw [if_pos hdg]
            have hp : digitsAux (tl ++ rest) (hd.toNat - 48) = (i.natAbs, rest) := by
              rw [show hd.toNat - 48 = 0 * 10 + (hd.toNat - 48) by omega,
                ← digitsAux_cons_digit hdg, ← List.cons_append, ← hnc,
                digitsAux_natChars_stop _ hrest]
            simp only [hp]
            simp only [Option.some.injEq, Prod.mk.injEq, Json.num.injEq]
            refine ⟨?_, trivial⟩
            simp only [Int.ofNat_eq_coe]
            omega
        · rw [if_neg hi]
          obtain ⟨hne, hall⟩ := natChars_digits i.toNat
          cases hnc : natChars i.toNat with
          | nil => exact absurd hnc hne
          | cons hd tl =>
            have hdg : hd.isDigit = true := hall hd (hnc ▸ List.mem_cons_self _ _)
            obtain ⟨hws, hn, ht, hf', hq, hm, _, _, _⟩ := digit_branches hdg
            simp only [List.cons_append, parseValue]
            rw [skipWs_cons_not_ws hws]
            have hp : digitsAux (tl ++ rest) (hd.toNat - 48) = (i.toNat, rest) := by
              rw [show hd.toNat - 48 = 0 * 10 + (hd.toNat - 48) by omega,
                ← digitsAux_cons_digit hdg, ← List.cons_append, ← hnc,
                digitsAux_natChars_stop _ hrest]
            simp only [hn, ht, hf', hq, hm, hdg, if_true, if_false, ite_true, ite_false, hp]
            simp only [Option.some.injEq, Prod.mk.injEq, Json.num.injEq]
            refine ⟨?_, trivial⟩
            simp only [Int.ofNat_eq_coe]
            omega
      | str s =>
        rw [show dumpVal ind d (Json.str s) = quoteChars s.data from rfl]
        rw [quoteChars]
        simp only [List.cons_append, List.append_assoc, List.singleton_append, parseValue]
        rw [skipWs_cons_not_ws (by decide)]
        simp only [if_neg (show ¬('"' : Char) = 'n' by decide),
          if_neg (show ¬('"' : Char) = 't' by decide),
          if_neg (show ¬('"' : Char) = 'f' by decide), if_pos rfl, if_true, List.nil_append]
        rw [parseStringBody_escChars s.data _ [] rest (by
          have := escChars_length s.data
          simp only [List.length_append, List.length_cons]
          omega)]
        simp [stringmk_data]
      | arr elems =>
        cases elems with
        | nil =>
          rw [show dumpVal ind d (Json.arr []) = ['[', ']'] from rfl]
          simp only [List.cons_append, List.nil_append, parseValue]
          rw [skipWs_cons_not_ws (by decide)]
          simp only [if_neg (show ¬('[' : Char) = 'n' by decide),
            if_neg (show ¬('[' : Char) = 't' by decide),
            if_neg (show ¬('[' : Char) = 'f' by decide),
            if_neg (show ¬('[' : Char) = '"' by decide),
            if_neg (show ¬('[' : Char) = '-' by decide),
            if_neg (show ¬('[' : Char).isDigit = true by decide), if_pos rfl]
          rw [skipWs_cons_not_ws (by decide)]
          simp
        | cons x xs =>
          rw [show dumpVal ind d (Json.arr (x :: xs)) =
            '[' :: (nlPad ind (d + 1) ++ dumpVal ind (d + 1) x ++ dumpItems ind d xs ++
              nlPad ind d ++ [']']) from rfl]
          simp only [List.cons_append, List.append_assoc, List.singleton_append, parseValue]
          rw [skipWs_cons_not_ws (by decide)]
          simp only [if_neg (show ¬('[' : Char) = 'n' by decide),
            if_neg (show ¬('[' : Char) = 't' by decide),
            if_neg (show ¬('[' : Char) = 'f' by decide),
            if_neg (show ¬('[' : Char) = '"' by decide),
            if_neg (show ¬('[' : Char) = '-' by decide),
            if_neg (show ¬('[' : Char).isDigit = true by decide), if_pos rfl]
          obtain ⟨hd2, tl2, hD, hwsD, hbD⟩ := dumpVal_head ind (d + 1) x
          rw [skipWs_nlPad, hD]
          simp only [List.cons_append]
          rw [skipWs_cons_not_ws hwsD]
          simp only [if_true, List.nil_append]
          rw [if_neg hbD]
          rw [parseArrItems_congr f [] (show skipWs (hd2 :: (tl2 ++ (dumpItems ind d xs ++
                (nlPad ind d ++ ']' :: rest)))) =
              skipWs (nlPad ind (d + 1) ++ dumpVal ind (d + 1) x ++ dumpItems ind d xs ++
                nlPad ind d ++ ']' :: rest) by
            rw [skipWs_cons_not_ws hwsD]
            simp only [List.append_assoc, skipWs_nlPad, hD]
            rw [List.cons_append, skipWs_cons_not_ws hwsD])]
          have hsz : sizeArr (x :: xs) ≤ f := by
            simp only [sizeJ] at hs
            omega
          have hwf2 : wfArr (x :: xs) = true := by
            simpa [wfB] using hwf
          simpa using ihB ind d x xs rest [] hsz hwf2
      | obj members =>
        cases members with
        | nil =>
          rw [show dumpVal ind d (Json.obj []) = ['\x7b', '\x7d'] from rfl]
          simp only [List.cons_append, List.nil_append, parseValue]
          rw [skipWs_cons_not_ws (by decide)]
          simp only [if_neg (show ¬('\x7b' : Char) = 'n' by decide),
            if_neg (show ¬('\x7b' : Char) = 't' by decide),
            if_neg (show ¬('\x7b' : Char) = 'f' by decide),
            if_neg (show ¬('\x7b' : Char) = '"' by decide),
            if_neg (show ¬('\x7b' : Char) = '-' by decide),
            if_neg (show ¬('\x7b' : Char).isDigit = true by decide),
            if_neg (show ¬('\x7b' : Char) = '[' by decide), if_pos rfl]
          rw [skipWs_cons_not_ws (by decide)]
          simp
        | cons m ms =>
          obtain ⟨k, v⟩ := m
          rw [show dumpVal ind d (Json.obj ((k, v) :: ms)) =
            '\x7b' :: (nlPad ind (d + 1) ++ dumpMember ind d (k, v) ++ dumpMembers ind d ms ++
              nlPad ind d ++ ['\x7d']) from rfl]
          simp only [List.cons_append, List.append_assoc, List.singleton_append, parseValue]
          rw [skipWs_cons_not_ws (by decide)]
          simp only [if_neg (show ¬('\x7b' : Char) = 'n' by decide),
            if_neg (show ¬('\x7b' : Char) = 't' by decide),
            if_neg (show ¬('\x7b' : Char) = 'f' by decide),
            if_neg (show ¬('\x7b' : Char) = '"' by decide),
            if_neg (show ¬('\x7b' : Char) = '-' by decide),
            if_neg (show ¬('\x7b' : Char).isDigit = true by decide),
            if_neg (show ¬('\x7b' : Char) = '[' by decide), if_pos rfl, if_true, List.nil_append]
          rw [show dumpMember ind d (k, v) =
            quoteChars k.data ++ ':' :: ' ' :: dumpVal ind (d + 1) v from rfl, quoteChars]
          simp only [List.cons_append, List.append_assoc, skipWs_nlPad]
          rw [skipWs_cons_not_ws (by decide)]
          simp only [if_true]
          rw [if_neg (show ¬('"' : Char) = '\x7d' by decide)]
          have hsz : sizeMembers ((k, v) :: ms) ≤ f := by
            simp only [sizeJ] at hs
            omega
          have hwfm : wfMembers ((k, v) :: ms) = true := by
            simp only [wfB, Bool.and_eq_true] at hwf
            exact hwf.2
          have hdist : keysDistinctB ([] ++ (k, v) :: ms) = true := by
            simp only [wfB, Bool.and_eq_true] at hwf
            simpa using hwf.1
          have hpad := ihC ind d k v ms rest [] hsz hwfm hdist
          simp only [List.nil_append] at hpad
          rw [← hpad]
          refine parseObjItems_congr f [] ?_
          rw [skipWs_cons_not_ws (by decide)]
          rw [show dumpMember ind d (k, v) =
            quoteChars k.data ++ ':' :: ' ' :: dumpVal ind (d + 1) v from rfl, quoteChars]
          simp only [List.cons_append, List.append_assoc, skipWs_nlPad]
          rw [skipWs_cons_not_ws (by decide)]
    · -- parseArrItems inverts dumpItems
      intro ind d x xs rest acc hs hwf
      obtain ⟨hx, hxs⟩ : wfB x = true ∧ wfArr xs = true := by
        simpa [wfArr] using hwf
      have hnd : headNotDigitB (dumpItems ind d xs ++ (nlPad ind d ++ ']' :: rest)) = true := by
        cases xs <;> simp [dumpItems, nlPad, headNotDigitB]
      simp only [parseArrItems]
      rw [parseValue_congr f (show
        skipWs (nlPad ind (d + 1) ++ dumpVal ind (d + 1) x ++ dumpItems ind d xs ++
          nlPad ind d ++ ']' :: rest) =
        skipWs (dumpVal ind (d + 1) x ++ (dumpItems ind d xs ++ (nlPad ind d ++ ']' :: rest))) by
          simp only [List.append_assoc, skipWs_nlPad])]
      rw [ihA ind (d + 1) x _ (by simp only [sizeArr] at hs; omega) hx hnd]
      cases xs with
      | nil =>
        simp only [dumpItems, List.nil_append, skipWs_nlPad]
        rw [skipWs_cons_not_ws (by decide)]
        simp
      | cons y ys =>
        simp only [dumpItems, List.cons_append, List.append_assoc]
        rw [skipWs_cons_not_ws (by decide)]
        simp only [if_pos rfl, if_true]
        have hsz2 : sizeArr (y :: ys) ≤ f := by
          simp only [sizeArr] at hs ⊢
          omega
        have hwf2 : wfArr (y :: ys) = true := by
          simpa [wfArr] using hxs
        have := ihB ind d y ys rest (acc ++ [x]) hsz2 hwf2
        simp only [List.append_assoc, List.singleton_append] at this ⊢
        rw [this]
    · -- parseObjItems inverts dumpMembers
      intro ind d k v ms rest acc hs hwf hdist
      obtain ⟨hv, hms⟩ : wfB v = true ∧ wfMembers ms = true := by
        simpa [wfMembers] using hwf
      have hmem : ∀ m ∈ acc, m.1 ≠ k := keysDistinctB_append_head_ne acc ms k v hdist
      have hnd2 : headNotDigitB (dumpMembers ind d ms ++ (nlPad ind d ++ '\x7d' :: rest)) = true := by
        cases ms <;> simp [dumpMembers, nlPad, headNotDigitB]
      simp only [parseObjItems]
      rw [show dumpMember ind d (k, v) =
        quoteChars k.data ++ ':' :: ' ' :: dumpVal ind (d + 1) v from rfl, quoteChars]
      simp only [List.cons_append, List.append_assoc, skipWs_nlPad]
      rw [skipWs_cons_not_ws (by decide)]
      simp only [if_true]
      rw [parseStringBody_escChars k.data _ [] _ (by
        have := escChars_length k.data
        simp only [List.length_append, List.length_cons]
        omega)]
      simp only [List.nil_append]
      rw [skipWs_cons_not_ws (by decide)]
      simp only [if_true]
      rw [parseValue_congr f (show
        skipWs (' ' :: (dumpVal ind (d + 1) v ++ (dumpMembers ind d ms ++ (nlPad ind d ++ '\x7d' :: rest)))) =
        skipWs (dumpVal ind (d + 1) v ++ (dumpMembers ind d ms ++ (nlPad ind d ++ '\x7d' :: rest))) by
          simp [skipWs, isWs])]
      rw [ihA ind (d + 1) v _ (by simp only [sizeMembers] at hs; omega) hv hnd2]
      have hsetk : setKey acc (String.mk k.data) v = acc ++ [(k, v)] := by
        rw [stringmk_data]
        exact setKey_eq_append acc k v hmem
      cases ms with
      | nil =>
        simp only [dumpMembers, List.nil_append, skipWs_nlPad]
        rw [skipWs_cons_not_ws (by decide)]
        simp only [if_neg (show ¬('\x7d' : Char) = ',' by decide), if_pos rfl, if_true, hsetk]
      | cons m2 more =>
        obtain ⟨k2, v2⟩ := m2
        simp only [dumpMembers, List.cons_append, List.append_assoc]
        rw [skipWs_cons_not_ws (by decide)]
        simp only [if_pos rfl, if_true, hsetk]
        have hsz2 : sizeMembers ((k2, v2) :: more) ≤ f := by
          simp only [sizeMembers] at hs ⊢
          omega
        have hwf2 : wfMembers ((k2, v2) :: more) = true := by
          simpa [wfMembers] using hms
        have hdist2 : keysDistinctB ((acc ++ [(k, v)]) ++ (k2, v2) :: more) = true := by
          simpa using hdist
        have := ihC ind d k2 v2 more rest (acc ++ [(k, v)]) hsz2 hwf2 hdist2
        simp only [List.append_assoc, List.singleton_append] at this ⊢
        rw [this]

/-! ### Every value the parser produces is well formed -/

theorem parse_wf_all : ∀ fuel : Nat,
    (∀ cs j rest, parseValue fuel cs = some (j, rest) → wfB j = true) ∧
    (∀ cs acc j rest, wfArr acc = true → parseArrItems fuel cs acc = some (j, rest) →
      wfB j = true) ∧
    (∀ cs acc j rest, keysDistinctB acc = true → wfMembers acc = true →
      parseObjItems fuel cs acc = some (j, rest) → wfB j = true) := by
  intro fuel
  induction fuel with
  | zero =>
    refine ⟨?_, ?_, ?_⟩
    · intro cs j rest h
      exact Option.noConfusion h
    · intro cs acc j rest _ h
      exact Option.noConfusion h
    · intro cs acc j rest _ _ h
      exact Option.noConfusion h
  | succ f ih =>
    obtain ⟨ihA, ihB, ihC⟩ := ih
    refine ⟨?_, ?_, ?_⟩
    · intro cs j rest h
      simp only [parseValue] at h
      repeat' split at h
      all_goals
        first
        | exact Option.noConfusion h
        | exact ihB _ [] _ _ rfl h
        | exact ihC _ [] _ _ rfl rfl h
        | · simp only [Option.some.injEq, Prod.mk.injEq] at h
            obtain ⟨h1, _⟩ := h
            subst h1
            rfl
    · intro cs acc j rest hacc h
      simp only [parseArrItems] at h
      split at h
      · exact Option.noConfusion h
      · rename_i v r heq
        have hv : wfB v = true := ihA cs v r heq
        split at h
        · exact Option.noConfusion h
        · split at h
          · exact ihB _ (acc ++ [v]) _ _ (wfArr_append hacc hv) h
          · split at h
            · simp only [Option.some.injEq, Prod.mk.injEq] at h
              obtain ⟨h1, _⟩ := h
              subst h1
              simpa [wfB] using wfArr_append hacc hv
            · exact Option.noConfusion h
    · intro cs acc j rest hkd hwm h
      simp only [parseObjItems] at h
      split at h
      · exact Option.noConfusion h
      · split at h
        · split at h
          · exact Option.noConfusion h
          · rename_i kcs r2 heqs
            split at h
            · exact Option.noConfusion h
            · split at h
              · split at h
                · exact Option.noConfusion h
                · rename_i v r4 heqv
                  have hv : wfB v = true := ihA _ v r4 heqv
                  split at h
                  · exact Option.noConfusion h
                  · split at h
                    · exact ihC _ (setKey acc (String.mk kcs) v) _ _
                        (keysDistinctB_setKey hkd) (wfMembers_setKey hwm hv) h
                    · split at h
                      · simp only [Option.some.injEq, Prod.mk.injEq] at h
                        obtain ⟨h1, _⟩ := h
                        subst h1
                        simp only [wfB, Bool.and_eq_true]
                        exact ⟨keysDistinctB_setKey hkd, wfMembers_setKey hwm hv⟩
                      · exact Option.noConfusion h
              · exact Option.noConfusion h
        · exact Option.noConfusion h

theorem intChars_length_pos (i : Int) : 1 ≤ (intChars i).length := by
  unfold intChars
  by_cases h : i < 0
  · simp [h]
  · rw [if_neg h]
    obtain ⟨hne, _⟩ := natChars_digits i.toNat
    cases hnc : natChars i.toNat with
    | nil => exact absurd hnc hne
    | cons hd tl => simp [hnc]

/-! ### The parser fuel supplied by `json_load` suffices -/

mutual

theorem sizeJ_le_dumpVal (ind d : Nat) (j : Json) : sizeJ j ≤ (dumpVal ind d j).length := by
  cases j with
  | null => simp [sizeJ, dumpVal]
  | bool b => cases b <;> simp [sizeJ, dumpVal]
  | num i =>
    rw [show dumpVal ind d (Json.num i) = intChars i from rfl]
    have := intChars_length_pos i
    simp only [sizeJ]
    omega
  | str s =>
    rw [show dumpVal ind d (Json.str s) = quoteChars s.data from rfl]
    simp [sizeJ, quoteChars]
  | arr elems =>
    cases elems with
    | nil => simp [sizeJ, sizeArr, dumpVal]
    | cons x xs =>
      have h1 := sizeJ_le_dumpVal ind (d + 1) x
      have h2 := sizeArr_le_dumpItems ind d xs
      rw [show dumpVal ind d (Json.arr (x :: xs)) =
        '[' :: (nlPad ind (d + 1) ++ dumpVal ind (d + 1) x ++ dumpItems ind d xs ++
          nlPad ind d ++ [']']) from rfl]
      simp only [sizeJ, sizeArr, List.length_cons, List.length_append, nlPad,
        List.length_replicate] at h1 h2 ⊢
      omega
  | obj members =>
    cases members with
    | nil => simp [sizeJ, sizeMembers, dumpVal]
    | cons m ms =>
      have h1 := sizeJ_lt_dumpMember ind d m
      have h2 := sizeMembers_le_dumpMembers ind d ms
      rw [show dumpVal ind d (Json.obj (m :: ms)) =
        '\x7b' :: (nlPad ind (d + 1) ++ dumpMember ind d m ++ dumpMembers ind d ms ++
          nlPad ind d ++ ['\x7d']) from rfl]
      simp only [sizeJ, sizeMembers, List.length_cons, List.length_append, nlPad,
        List.length_replicate] at h1 h2 ⊢
      omega

theorem sizeJ_lt_dumpMember (ind d : Nat) (m : String × Json) :
    sizeJ m.2 + 1 ≤ (dumpMember ind d m).length := by
  obtain ⟨k, v⟩ := m
  have h1 := sizeJ_le_dumpVal ind (d + 1) v
  rw [show dumpMember ind d (k, v) =
    quoteChars k.data ++ ':' :: ' ' :: dumpVal ind (d + 1) v from rfl]
  simp only [quoteChars, List.length_append, List.length_cons]
  omega

theorem sizeArr_le_dumpItems (ind d : Nat) (xs : List Json) :
    sizeArr xs ≤ (dumpItems ind d xs).length + 1 := by
  cases xs with
  | nil => simp [sizeArr, dumpItems]
  | cons x t =>
    have h1 := sizeJ_le_dumpVal ind (d + 1) x
    have h2 := sizeArr_le_dumpItems ind d t
    rw [show dumpItems ind d (x :: t) =
      ',' :: (nlPad ind (d + 1) ++ dumpVal ind (d + 1) x ++ dumpItems ind d t) from rfl]
    simp only [sizeArr, List.length_cons, List.length_append]
    omega

theorem sizeMembers_le_dumpMembers (ind d : Nat) (ms : List (String × Json)) :
    sizeMembers ms ≤ (dumpMembers ind d ms).length + 1 := by
  cases ms with
  | nil => simp [sizeMembers, dumpMembers]
  | cons m t =>
    have h1 := sizeJ_lt_dumpMember ind d m
    have h2 := sizeMembers_le_dumpMembers ind d t
    rw [show dumpMembers ind d (m :: t) =
      ',' :: (nlPad ind (d + 1) ++ dumpMember ind d m ++ dumpMembers ind d t) from rfl]
    simp only [sizeMembers, List.length_cons, List.length_append]
    omega

end

/-! ### `json.load` inverts `json.dumps` on well-formed documents -/

theorem json_load_json_dumps (ind : Nat) (j : Json) (h : wfB j = true) :
    json_load (json_dumps ind j) = some j := by
  unfold json_load json_dumps
  have hlen : sizeJ j ≤ (dumpVal ind 0 j).length + 1 := by
    have := sizeJ_le_dumpVal ind 0 j
    omega
  have hparse := (parse_dump_all ((dumpVal ind 0 j).length + 1)).1 ind 0 j [] hlen h rfl
  simp only [List.append_nil] at hparse
  simp only [show (String.mk (dumpVal ind 0 j)).data = dumpVal ind 0 j from rfl, hparse]
  simp [skipWs]

theorem json_load_wf {s : String} {j : Json} (h : json_load s = some j) : wfB j = true := by
  unfold json_load at h
  repeat' split at h
  all_goals
    first
    | exact Option.noConfusion h
    | · rename_i heq hcond
        simp only [Option.some.injEq] at h
        subst h
        exact (parse_wf_all (s.data.length + 1)).1 _ _ _ heq

/-! ### The serializer emits only ASCII (`ensure_ascii=True`) -/

theorem natChars_ascii (n : Nat) : ∀ c ∈ natChars n, c.toNat < 128 := by
  induction n using Nat.strong_induction_on with
  | _ n ih =>
    by_cases h : n < 10
    · rw [natChars_unfold, if_pos h]
      intro c hc
      rw [List.mem_singleton] at hc
      subst hc
      exact digitChar_ascii n
    · rw [natChars_unfold, if_neg h]
      intro c hc
      rcases List.mem_append.1 hc with h2 | h2
      · exact ih _ (Nat.div_lt_self (by omega) (by omega)) c h2
      · rw [List.mem_singleton] at h2
        subst h2
        exact digitChar_ascii _

theorem intChars_ascii (i : Int) : ∀ c ∈ intChars i, c.toNat < 128 := by
  unfold intChars
  split
  · simp only [List.forall_mem_cons]
    exact ⟨by decide, natChars_ascii _⟩
  · exact natChars_ascii _

theorem toHex4_ascii (n : Nat) : ∀ c ∈ toHex4 n, c.toNat < 128 := by
  simp only [toHex4, List.forall_mem_cons]
  exact ⟨hexDigit_ascii _, hexDigit_ascii _, hexDigit_ascii _, hexDigit_ascii _, by simp⟩

theorem escapeChar_ascii (c : Char) : ∀ c2 ∈ escapeChar c, c2.toNat < 128 := by
  intro c2 hc2
  unfold escapeChar at hc2
  repeat' split at hc2
  all_goals
    simp only [List.mem_cons, List.mem_append, List.not_mem_nil, or_false] at hc2
  all_goals try casesm* _ ∨ _
  all_goals
    first
    | (subst hc2; decide)
    | (subst hc2; omega)
    | exact toHex4_ascii _ _ hc2
    | (rename_i h3
       first
       | (subst h3; decide)
       | (subst h3; omega)
       | exact toHex4_ascii _ _ h3)

theorem escChars_ascii (s : List Char) : ∀ c ∈ escChars s, c.toNat < 128 := by
  induction s with
  | nil => simp [escChars]
  | cons c cs ih =>
    simp only [escChars, List.forall_mem_append]
    exact ⟨escapeChar_ascii c, ih⟩

theorem quoteChars_ascii (s : List Char) : ∀ c ∈ quoteChars s, c.toNat < 128 := by
  simp only [quoteChars, List.forall_mem_cons, List.forall_mem_append,
    List.forall_mem_singleton]
  exact ⟨by decide, escChars_ascii s, by decide⟩

theorem nlPad_ascii (ind d : Nat) : ∀ c ∈ nlPad ind d, c.toNat < 128 := by
  simp only [nlPad, List.forall_mem_cons]
  refine ⟨by decide, ?_⟩
  intro c hc
  have := List.eq_of_mem_replicate hc
  subst this
  decide

mutual

theorem dumpVal_ascii (ind d : Nat) (j : Json) : ∀ c ∈ dumpVal ind d j, c.toNat < 128 := by
  cases j with
  | null =>
    rw [show dumpVal ind d Json.null = ['n', 'u', 'l', 'l'] from rfl]
    decide
  | bool b =>
    cases b with
    | true =>
      rw [show dumpVal ind d (Json.bool true) = ['t', 'r', 'u', 'e'] from rfl]
      decide
    | false =>
      rw [show dumpVal ind d (Json.bool false) = ['f', 'a', 'l', 's', 'e'] from rfl]
      decide
  | num i =>
    rw [show dumpVal ind d (Json.num i) = intChars i from rfl]
    exact intChars_ascii i
  | str s =>
    rw [show dumpVal ind d (Json.str s) = quoteChars s.data from rfl]
    exact quoteChars_ascii s.data
  | arr elems =>
    cases elems with
    | nil =>
      rw [show dumpVal ind d (Json.arr []) = ['[', ']'] from rfl]
      decide
    | cons x xs =>
      rw [show dumpVal ind d (Json.arr (x :: xs)) =
        '[' :: (nlPad ind (d + 1) ++ dumpVal ind (d + 1) x ++ dumpItems ind d xs ++
          nlPad ind d ++ [']']) from rfl]
      simp only [List.forall_mem_cons, List.forall_mem_append, List.forall_mem_singleton,
        and_assoc]
      exact ⟨by decide, nlPad_ascii ind (d + 1), dumpVal_ascii ind (d + 1) x,
        dumpItems_ascii ind d xs, nlPad_ascii ind d, by decide⟩
  | obj members =>
    cases members with
    | nil =>
      rw [show dumpVal ind d (Json.obj []) = ['\x7b', '\x7d'] from rfl]
      decide
    | cons m ms =>
      rw [show dumpVal ind d (Json.obj (m :: ms)) =
        '\x7b' :: (nlPad ind (d + 1) ++ dumpMember ind d m ++ dumpMembers ind d ms ++
          nlPad ind d ++ ['\x7d']) from rfl]
      simp only [List.forall_mem_cons, List.forall_mem_append, List.forall_mem_singleton,
        and_assoc]
      exact ⟨by decide, nlPad_ascii ind (d + 1), dumpMember_ascii ind d m,
        dumpMembers_ascii ind d ms, nlPad_ascii ind d, by decide⟩

theorem dumpMember_ascii (ind d : Nat) (m : String × Json) :
    ∀ c ∈ dumpMember ind d m, c.toNat < 128 := by
  obtain ⟨k, v⟩ := m
  rw [show dumpMember ind d (k, v) =
    quoteChars k.data ++ ':' :: ' ' :: dumpVal ind (d + 1) v from rfl]
  simp only [List.forall_mem_append, List.forall_mem_cons, and_assoc]
  exact ⟨quoteChars_ascii k.data, by decide, by decide, dumpVal_ascii ind (d + 1) v⟩

theorem dumpItems_ascii (ind d : Nat) (xs : List Json) :
    ∀ c ∈ dumpItems ind d xs, c.toNat < 128 := by
  cases xs with
  | nil =>
    rw [show dumpItems ind d [] = [] from rfl]
    decide
  | cons x t =>
    rw [show dumpItems ind d (x :: t) =
      ',' :: (nlPad ind (d + 1) ++ dumpVal ind (d + 1) x ++ dumpItems ind d t) from rfl]
    simp only [List.forall_mem_cons, List.forall_mem_append, and_assoc]
    exact ⟨by decide, nlPad_ascii ind (d + 1), dumpVal_ascii ind (d + 1) x,
      dumpItems_ascii ind d t⟩

theorem dumpMembers_ascii (ind d : Nat) (ms : List (String × Json)) :
    ∀ c ∈ dumpMembers ind d ms, c.toNat < 128 := by
  cases ms with
  | nil =>
    rw [show dumpMembers ind d [] = [] from rfl]
    decide
  | cons m t =>
    rw [show dumpMembers ind d (m :: t) =
      ',' :: (nlPad ind (d + 1) ++ dumpMember ind d m ++ dumpMembers ind d t) from rfl]
    simp only [List.forall_mem_cons, List.forall_mem_append, and_assoc]
    exact ⟨by decide, nlPad_ascii ind (d + 1), dumpMember_ascii ind d m,
      dumpMembers_ascii ind d t⟩

end

/-! ### Unfolding lemmas for `configure_storage` and `mainRun` -/

theorem configure_storage_ok_of_parse {raw : String} {ms : List (String × Json)} (p : String)
    (h : json_load raw = some (Json.obj ms)) :
    configure_storage (some raw) p =
      Except.ok (json_dumps 2 (Json.obj (setKey ms "storage" (storageConfig p))),
        "Storage adapter configured successfully") := by
  simp only [configure_storage, h]

theorem configure_storage_ok_inv {raw p out msg : String}
    (h : configure_storage (some raw) p = Except.ok (out, msg)) :
    ∃ ms, json_load raw = some (Json.obj ms) ∧
      out = json_dumps 2 (Json.obj (setKey ms "storage" (storageConfig p))) ∧
      msg = "Storage adapter configured successfully" := by
  simp only [configure_storage] at h
  split at h
  · exact Except.noConfusion h
  · rename_i ms heq
    simp only [Except.ok.injEq, Prod.mk.injEq] at h
    exact ⟨ms, heq, h.1.symm, h.2.symm⟩
  · exact Except.noConfusion h

theorem new_doc_wf {raw : String} {ms : List (String × Json)} (p : String)
    (h : json_load raw = some (Json.obj ms)) :
    wfB (Json.obj (setKey ms "storage" (storageConfig p))) = true := by
  have hw := json_load_wf h
  simp only [wfB, Bool.and_eq_true] at hw ⊢
  exact ⟨keysDistinctB_setKey hw.1, wfMembers_setKey hw.2 (wfB_storageConfig p)⟩

theorem out_reparses {raw : String} {ms : List (String × Json)} (p : String)
    (h : json_load raw = some (Json.obj ms)) :
    json_load (json_dumps 2 (Json.obj (setKey ms "storage" (storageConfig p)))) =
      some (Json.obj (setKey ms "storage" (storageConfig p))) :=
  json_load_json_dumps 2 _ (new_doc_wf p h)

/-! ### The claims -/

/-- Claim C1: for every input file containing a valid top-level JSON object and
every string storagePath, a successful run of `configure_storage` leaves the
on-disk file parsing to a JSON object whose `storage` key equals exactly the
fixed StorageConfig record for that path; any pre-existing `storage` value is
wholly replaced and none of its sub-keys survive. -/
theorem configure_storage_sets_storage_exactly
    (raw p out msg : String) (ms : List (String × Json))
    (hparse : json_load raw = some (Json.obj ms))
    (hrun : configure_storage (some raw) p = Except.ok (out, msg)) :
    ∃ ms2, json_load out = some (Json.obj ms2) ∧
      lookupKey ms2 "storage" = some (storageConfig p) := by
  have hok := configure_storage_ok_of_parse p hparse
  rw [hrun] at hok
  simp only [Except.ok.injEq, Prod.mk.injEq] at hok
  obtain ⟨h1, -⟩ := hok
  subst h1
  exact ⟨setKey ms "storage" (storageConfig p), out_reparses p hparse,
    lookupKey_setKey_self ms _ _⟩

set_option maxRecDepth 8000 in
/-- Concrete instance of C1 at Scenario 1 of the specification. -/
theorem configure_storage_sets_storage_exactly_witness :
    json_load scenario1_input = some (Json.obj [("url", Json.str "http://x")]) ∧
    (∃ ms2, json_load scenario1_output = some (Json.obj ms2) ∧
      lookupKey ms2 "storage" = some (storageConfig "/var/data")) :=
  ⟨rfl, configure_storage_sets_storage_exactly scenario1_input "/var/data" scenario1_output
    "Storage adapter configured successfully" [("url", Json.str "http://x")] rfl (by rfl)⟩

/-- Claim C2: after a successful run every top-level key of the input other
than `storage` is still present with a deeply-equal value, and no top-level
key other than `storage` is added or removed: the output restricted to keys
other than `storage` equals the input restricted to keys other than
`storage` (order included). -/
theorem configure_storage_preserves_siblings
    (raw p out msg : String) (ms : List (String × Json))
    (hparse : json_load raw = some (Json.obj ms))
    (hrun : configure_storage (some raw) p = Except.ok (out, msg)) :
    ∃ ms2, json_load out = some (Json.obj ms2) ∧
      delKey ms2 "storage" = delKey ms "storage" := by
  have hok := configure_storage_ok_of_parse p hparse
  rw [hrun] at hok
  simp only [Except.ok.injEq, Prod.mk.injEq] at hok
  obtain ⟨h1, -⟩ := hok
  subst h1
  exact ⟨setKey ms "storage" (storageConfig p), out_reparses p hparse,
    delKey_setKey ms "storage" (storageConfig p)⟩

set_option maxRecDepth 8000 in
/-- Concrete instance of C2 at Scenario 1 of the specification. -/
theorem configure_storage_preserves_siblings_witness :
    json_load scenario1_input = some (Json.obj [("url", Json.str "http://x")]) ∧
    (∃ ms2, json_load scenario1_output = some (Json.obj ms2) ∧
      delKey ms2 "storage" = delKey [("url", Json.str "http://x")] "storage") :=
  ⟨rfl, configure_storage_preserves_siblings scenario1_input "/var/data" scenario1_output
    "Storage adapter configured successfully" [("url", Json.str "http://x")] rfl (by rfl)⟩

/-- Claim C3: if `configure_storage` fails for any reason — missing file,
invalid JSON, top level not an object — the target file is left unchanged
and the process terminates fatally (exit code 1); in particular a run on a
file containing invalid JSON modifies nothing. -/
theorem configure_storage_failure_leaves_file_unchanged
    (argv : List String) (file : Option String) (e : Err)
    (h : configure_storage file (argv.getD 2 "") = Except.error e) :
    (mainRun argv file).file = file ∧ (mainRun argv file).exitCode = 1 := by
  by_cases hl : argv.length ≠ 3
  · simp [mainRun, if_pos hl]
  · simp only [mainRun, if_neg hl]
    rw [h]
    exact ⟨rfl, rfl⟩

/-- Concrete instance of C3: a file containing invalid JSON is untouched. -/
theorem configure_storage_failure_leaves_file_unchanged_witness :
    (mainRun ["scripts/configure-storage.py", "config.json", "/p"] (some "not json")).file =
      some "not json" ∧
    (mainRun ["scripts/configure-storage.py", "config.json", "/p"] (some "not json")).exitCode = 1 :=
  configure_storage_failure_leaves_file_unchanged
    ["scripts/configure-storage.py", "config.json", "/p"] (some "not json") Err.parseError rfl

/-- Claim C4: `configure_storage` is idempotent — running the patcher a second
time on its own output with the same storage path succeeds and leaves the
file content exactly as after the first run. -/
theorem configure_storage_idempotent
    (raw p out msg : String)
    (h : configure_storage (some raw) p = Except.ok (out, msg)) :
    configure_storage (some out) p = Except.ok (out, msg) := by
  obtain ⟨ms, hparse, hout, hmsg⟩ := configure_storage_ok_inv h
  subst hout hmsg
  rw [configure_storage_ok_of_parse p (out_reparses p hparse), setKey_setKey]

set_option maxRecDepth 8000 in
/-- Concrete instance of C4: a second run on the Scenario 1 output
reproduces it byte for byte. -/
theorem configure_storage_idempotent_witness :
    configure_storage (some scenario1_output) "/var/data" =
      Except.ok (scenario1_output, "Storage adapter configured successfully") :=
  configure_storage_idempotent scenario1_input "/var/data" scenario1_output
    "Storage adapter configured successfully" (by rfl)

/-- Claim C5: `configure_storage` fails with the read/parse error exactly when
the file is missing or its content is not valid JSON, fails with the
TypeError exactly when the parsed top level is not an object, and these are
the only failure conditions of the operation. -/
theorem configure_storage_error_conditions (file : Option String) (p : String) (e : Err) :
    configure_storage file p = Except.error e ↔
      (e = Err.ioError ∧ file = none) ∨
      (e = Err.parseError ∧ ∃ raw, file = some raw ∧ json_load raw = none) ∨
      (e = Err.typeError ∧ ∃ raw j, file = some raw ∧ json_load raw = some j ∧
        ∀ ms, j ≠ Json.obj ms) := by
  constructor
  · intro h
    cases file with
    | none =>
      simp only [configure_storage] at h
      cases h
      exact Or.inl ⟨rfl, rfl⟩
    | some raw =>
      simp only [configure_storage] at h
      split at h
      · rename_i heq
        cases h
        exact Or.inr (Or.inl ⟨rfl, raw, rfl, heq⟩)
      · exact Except.noConfusion h
      · rename_i val hnotobj hload
        cases h
        refine Or.inr (Or.inr ⟨rfl, raw, val, rfl, hload, ?_⟩)
        intro ms hval
        exact hnotobj ms hval
  · intro h
    rcases h with ⟨rfl, rfl⟩ | ⟨rfl, raw, rfl, hp⟩ | ⟨rfl, raw, j, rfl, hp, hno⟩
    · rfl
    · simp [configure_storage, hp]
    · cases j with
      | obj ms => exact absurd rfl (hno ms)
      | null => simp [configure_storage, hp]
      | bool b => simp [configure_storage, hp]
      | num n => simp [configure_storage, hp]
      | str s2 => simp [configure_storage, hp]
      | arr xs => simp [configure_storage, hp]

/-- Concrete instance of C5: invalid JSON yields exactly the parse-error
condition. -/
theorem configure_storage_error_conditions_witness :
    (Err.parseError = Err.ioError ∧ some "not json" = none) ∨
    (Err.parseError = Err.parseError ∧ ∃ raw, some "not json" = some raw ∧ json_load raw = none) ∨
    (Err.parseError = Err.typeError ∧ ∃ raw j, some "not json" = some raw ∧
      json_load raw = some j ∧ ∀ ms, j ≠ Json.obj ms) :=
  (configure_storage_error_conditions (some "not json") "/p" Err.parseError).mp rfl

/-- Claim C6: invoking the program with a number of command-line arguments
different from the expected two (`argv` here includes the program name, so
its expected length is 3) prints the usage message to standard output, exits
with code 1, and modifies no file. -/
theorem mainRun_wrong_arg_count_usage (argv : List String) (file : Option String)
    (h : argv.length ≠ 3) :
    mainRun argv file =
      { file := file, stdout := [usageMsg argv], exitCode := 1, uncaught := none } := by
  unfold mainRun
  rw [if_pos h]

/-- Concrete instance of C6: zero arguments (only the program name). -/
theorem mainRun_wrong_arg_count_usage_witness :
    mainRun ["scripts/configure-storage.py"] (some scenario1_input) =
      { file := some scenario1_input,
        stdout := ["Usage: scripts/configure-storage.py <config_file> <storage_path>"],
        exitCode := 1, uncaught := none } :=
  mainRun_wrong_arg_count_usage ["scripts/configure-storage.py"] (some scenario1_input)
    (by decide)

/-- Claim C7: every successful run (valid argument count, file readable and
containing a top-level JSON object) prints the confirmation message to
standard output and exits with code 0. -/
theorem mainRun_success_output (argv : List String) (file : Option String) (out msg : String)
    (hlen : argv.length = 3)
    (hrun : configure_storage file (argv.getD 2 "") = Except.ok (out, msg)) :
    mainRun argv file =
      { file := some out, stdout := ["Storage adapter configured successfully"],
        exitCode := 0, uncaught := none } := by
  cases file with
  | none => exact absurd hrun (by simp [configure_storage])
  | some raw =>
    obtain ⟨ms, -, -, hmsg⟩ := configure_storage_ok_inv hrun
    subst hmsg
    simp only [mainRun, if_neg (show ¬argv.length ≠ 3 by omega)]
    rw [hrun]

set_option maxRecDepth 8000 in
/-- Concrete instance of C7 at Scenario 1. -/
theorem mainRun_success_output_witness :
    mainRun ["scripts/configure-storage.py", "config.json", "/var/data"]
        (some scenario1_input) =
      { file := some scenario1_output,
        stdout := ["Storage adapter configured successfully"],
        exitCode := 0, uncaught := none } :=
  mainRun_success_output ["scripts/configure-storage.py", "config.json", "/var/data"]
    (some scenario1_input) scenario1_output "Storage adapter configured successfully"
    rfl (by rfl)

/-- Claim C8: the file written by a successful run is valid JSON — re-reading
it with the parser yields a JSON object — and it is the serialization with
an indentation of 2 spaces (the `json_dumps 2` form). -/
theorem configure_storage_output_valid_json_indent2
    (raw p out msg : String)
    (h : configure_storage (some raw) p = Except.ok (out, msg)) :
    ∃ ms2, out = json_dumps 2 (Json.obj ms2) ∧
      json_load out = some (Json.obj ms2) := by
  obtain ⟨ms, hparse, hout, -⟩ := configure_storage_ok_inv h
  subst hout
  exact ⟨setKey ms "storage" (storageConfig p), rfl, out_reparses p hparse⟩

set_option maxRecDepth 8000 in
/-- Concrete instance of C8 at Scenario 1. -/
theorem configure_storage_output_valid_json_indent2_witness :
    ∃ ms2, scenario1_output = json_dumps 2 (Json.obj ms2) ∧
      json_load scenario1_output = some (Json.obj ms2) :=
  configure_storage_output_valid_json_indent2 scenario1_input "/var/data" scenario1_output
    "Storage adapter configured successfully" (by rfl)

/-- Claim C9 (implicit): once the file content parses to a top-level JSON
object, `configure_storage` cannot fail: the `storage` assignment and the
serialization always succeed and the write completes, producing exactly the
serialized updated document and the confirmation message. -/
theorem configure_storage_total_after_parse
    (raw p : String) (ms : List (String × Json))
    (hparse : json_load raw = some (Json.obj ms)) :
    configure_storage (some raw) p =
      Except.ok (json_dumps 2 (Json.obj (setKey ms "storage" (storageConfig p))),
        "Storage adapter configured successfully") :=
  configure_storage_ok_of_parse p hparse

/-- Concrete instance of C9 at Scenario 1. -/
theorem configure_storage_total_after_parse_witness :
    configure_storage (some scenario1_input) "/var/data" =
      Except.ok (json_dumps 2 (Json.obj (setKey [("url", Json.str "http://x")] "storage"
        (storageConfig "/var/data"))), "Storage adapter configured successfully") :=
  configure_storage_total_after_parse scenario1_input "/var/data"
    [("url", Json.str "http://x")] rfl

/-- Claim C10 (implicit): the file written by a successful run contains only
ASCII characters, and every non-ASCII character (in the storage path or
anywhere in the document) is written as a `\uXXXX` escape sequence: below
`0x10000` the escape is `\u` followed by the four hex digits of the code
point. -/
theorem configure_storage_output_ascii_only :
    (∀ raw p out msg, configure_storage (some raw) p = Except.ok (out, msg) →
      ∀ c ∈ out.data, c.toNat < 128) ∧
    (∀ c : Char, 0x7f ≤ c.toNat → c.toNat < 0x10000 →
      escapeChar c = '\\' :: 'u' :: toHex4 c.toNat) := by
  constructor
  · intro raw p out msg h c hc
    obtain ⟨ms, -, hout, -⟩ := configure_storage_ok_inv h
    subst hout
    exact dumpVal_ascii 2 0 _ c hc
  · intro c h1 h2
    have hne : ∀ d : Char, d.toNat < 127 → c ≠ d := by
      intro d hd e
      subst e
      omega
    unfold escapeChar
    rw [if_neg (hne '"' (by decide)), if_neg (hne '\\' (by decide)),
      if_neg (hne '\n' (by decide)), if_neg (hne '\r' (by decide)),
      if_neg (hne '\t' (by decide)), if_neg (by omega), if_neg (by omega),
      if_neg (by omega), if_neg (by omega), if_pos h2]

set_option maxRecDepth 8000 in
/-- Concrete instance of C10: the opening brace of a run whose storage path
is `é` is ASCII, and `é` itself escapes to `\u00e9`. -/
theorem configure_storage_output_ascii_only_witness :
    ('\x7b' : Char).toNat < 128 ∧
    escapeChar 'é' = '\\' :: 'u' :: toHex4 ('é').toNat :=
  ⟨configure_storage_output_ascii_only.1 "\x7b\x7d" "é" asciiDemo_output
      "Storage adapter configured successfully" (by rfl) '\x7b' (by decide),
    configure_storage_output_ascii_only.2 'é' (by decide) (by decide)⟩

end ConfigureStorage
